import Mathlib

/-!
Verification development for the completeio completion-based I/O driver core.

The pure data types (Entry, Operation, the opcode adjustment helpers, the
socket retry loops and the io_uring submission-record builders) are embedded
directly from the repository sources.  The io_uring driver loop itself
(driver/iour/mod.rs) is not part of the provided sources; where a claim needs
it, the driver state machine is modelled from the specification, and each such
definition says so in its doc comment.
-/

namespace CompleteIo

/-- Structured error kinds carried by completion results, following the error
catalog of the specification (os errno, cancelled, timed-out, unexpected EOF
produced by higher layers). -/
inductive IoError where
  | cancelled
  | timedOut
  | unexpectedEof
  | os (code : Nat)
deriving DecidableEq, Repr

/-- Result of one operation: a non-negative byte count or a structured error,
embedding io::Result of usize. -/
abbrev IoResult := Except IoError Nat

instance {ε α : Type} [DecidableEq ε] [DecidableEq α] :
    DecidableEq (Except ε α) := fun a b =>
  match a, b with
  | Except.ok x, Except.ok y =>
    if h : x = y then isTrue (by rw [h])
    else isFalse (by intro hc; cases hc; exact h rfl)
  | Except.ok _, Except.error _ => isFalse (by intro hc; cases hc)
  | Except.error _, Except.ok _ => isFalse (by intro hc; cases hc)
  | Except.error x, Except.error y =>
    if h : x = y then isTrue (by rw [h])
    else isFalse (by intro hc; cases hc; exact h rfl)

/-- Completed entry returned from the kernel, embedded from Entry in
src/driver/mod.rs: a user_data token and an io result. -/
structure Entry where
  user_data : Nat
  result : IoResult
deriving DecidableEq, Repr

/-- Embeds Entry::new from src/driver/mod.rs. -/
def Entry.new (user_data : Nat) (result : IoResult) : Entry :=
  { user_data := user_data, result := result }

/-- Embeds Entry::into_result from src/driver/mod.rs: returns the stored
result unchanged. -/
def Entry.into_result (e : Entry) : IoResult :=
  e.result

/-- Operation envelope, embedded from Operation in src/driver/mod.rs: an
opcode held by exclusive reference paired with a caller-chosen token.  The
borrowed opcode is represented by a value of the opcode type. -/
structure Operation (O : Type) where
  op : O
  user_data : Nat
deriving DecidableEq, Repr

/-- Embeds Operation::new from src/driver/mod.rs. -/
def Operation.new {O : Type} (op : O) (user_data : Nat) : Operation O :=
  { op := op, user_data := user_data }

/-- Embeds Operation::opcode from src/driver/mod.rs. -/
def Operation.opcode {O : Type} (self : Operation O) : O :=
  self.op

/-- Dynamically dispatched operation object (OpObject in src/driver/mod.rs);
the erased opcode reference is modelled by an index. -/
abbrev OpObject := Operation Nat

/-- Submission-queue record of the modelled driver: either an accepted
operation carrying its token, or an async-cancel record targeting a token. -/
inductive SqRecord where
  | op (user_data : Nat)
  | cancel (target : Nat)
deriving DecidableEq, Repr

/-- Modelled from the spec: the io_uring driver state (driver/iour/mod.rs is
absent from the sources).  It owns a bounded submission queue, the set of
in-flight tokens handed to the kernel, the completion queue of ready entries,
and the entries already reported to a sink. -/
structure DriverState where
  capacity : Nat
  sq : List SqRecord
  inflight : List Nat
  cq : List Entry
  reported : List Entry
deriving DecidableEq, Repr

/-- Modelled from the spec: a freshly created driver with the platform-defined
submission-queue capacity and no queued, in-flight or completed operations. -/
def DriverState.new (capacity : Nat) : DriverState :=
  { capacity := capacity, sq := [], inflight := [], cq := [], reported := [] }

/-- Modelled from the spec: capacity_left reports free submission-queue
slots. -/
def capacity_left (s : DriverState) : Nat :=
  s.capacity - s.sq.length

/-- Modelled from the spec: try_push admits one operation into the submission
queue, or returns the very same operation back when the queue is full, leaving
the whole driver state (submission queue included) unchanged and performing no
kernel submission. -/
def try_push {O : Type} (s : DriverState) (op : Operation O) :
    Except (Operation O) Unit × DriverState :=
  if s.sq.length < s.capacity then
    (Except.ok (), { s with sq := s.sq ++ [SqRecord.op op.user_data] })
  else
    (Except.error op, s)

/-- Modelled from the spec: try_push_dyn has the same contract as try_push
with dynamic dispatch over opcodes. -/
def try_push_dyn (s : DriverState) (op : OpObject) :
    Except OpObject Unit × DriverState :=
  try_push s op

/-- Modelled from the spec: try_cancel enqueues a best-effort async-cancel
record for the token; on io_uring cancellation requires a submission-queue
slot, so it fails exactly when the queue is full. -/
def try_cancel (s : DriverState) (user_data : Nat) :
    Except Unit Unit × DriverState :=
  if s.sq.length < s.capacity then
    (Except.ok (), { s with sq := s.sq ++ [SqRecord.cancel user_data] })
  else
    (Except.error (), s)

/-- Modelled from the spec and the trait documentation in src/driver/mod.rs:
on the io_uring platform attach does nothing and returns Ok(()) for every
file descriptor. -/
def attach (s : DriverState) (_fd : Int) : Except IoError Unit × DriverState :=
  (Except.ok (), s)

/-- Modelled from the spec: one kernel-side happening observed while the
driver waits.  The kernel may complete an in-flight token with a result,
honor a cancel request for an in-flight token, or wake the waiter
spuriously. -/
inductive KernelEvent where
  | complete (t : Nat) (r : IoResult)
  | cancelHit (t : Nat)
  | spurious
deriving DecidableEq, Repr

/-- Tokens of the accepted operations sitting in a submission queue; cancel
records carry no operation of their own. -/
def sqTokens (l : List SqRecord) : List Nat :=
  l.filterMap (fun r =>
    match r with
    | SqRecord.op u => some u
    | SqRecord.cancel _ => none)

/-- Modelled from the spec: flushing hands every queued record to the kernel
in one submission call; accepted operations become in-flight, cancel records
are consumed by the kernel. -/
def flushSq (s : DriverState) : DriverState :=
  { s with sq := [], inflight := s.inflight ++ sqTokens s.sq }

/-- Modelled from the spec: effect of one kernel event on the driver state.
Completing or cancelling an in-flight token removes it from the in-flight set
and appends exactly one entry carrying that token to the completion queue;
events for unknown tokens and spurious wakeups change nothing. -/
def applyKernel (s : DriverState) (ev : KernelEvent) : DriverState :=
  match ev with
  | KernelEvent.complete t r =>
    if t ∈ s.inflight then
      { s with inflight := s.inflight.erase t, cq := s.cq ++ [Entry.new t r] }
    else s
  | KernelEvent.cancelHit t =>
    if t ∈ s.inflight then
      { s with
        inflight := s.inflight.erase t,
        cq := s.cq ++ [Entry.new t (Except.error IoError.cancelled)] }
    else s
  | KernelEvent.spurious => s

/-- Folds a whole list of kernel events over the driver state. -/
def applyKernelAll (s : DriverState) (evs : List KernelEvent) : DriverState :=
  evs.foldl applyKernel s

/-- Modelled from the spec: draining moves every currently available
completion out of the completion queue into the caller-supplied sink; the
drained entries are recorded as reported. -/
def drainCq (s : DriverState) : DriverState × List Entry :=
  ({ s with cq := [], reported := s.reported ++ s.cq }, s.cq)

/-- Modelled from the spec: the blocking wait used when no timeout is given.
If completions are already available they are drained at once; otherwise the
driver sleeps until the next kernel event, returning on the first completion
or on a spurious wakeup (with an empty sink).  The result is none when the
event source is exhausted with nothing to report: the call is still blocked.
The returned list is the stream of kernel events not yet consumed. -/
def waitForever :
    DriverState → List KernelEvent →
      Option (DriverState × List Entry × List KernelEvent)
  | s, [] =>
    if s.cq.isEmpty then none
    else some ((drainCq s).1, (drainCq s).2, [])
  | s, ev :: rest =>
    if s.cq.isEmpty then
      match ev with
      | KernelEvent.spurious => some ((drainCq s).1, (drainCq s).2, rest)
      | KernelEvent.complete t r =>
        waitForever (applyKernel s (KernelEvent.complete t r)) rest
      | KernelEvent.cancelHit t =>
        waitForever (applyKernel s (KernelEvent.cancelHit t)) rest
    else some ((drainCq s).1, (drainCq s).2, ev :: rest)

/-- Modelled from the spec: the bounded wait used for a positive timeout.  It
behaves like the blocking wait but the timeout may expire (modelled by the
event stream running dry), in which case the call returns with an empty
sink. -/
def waitBounded :
    DriverState → List KernelEvent →
      DriverState × List Entry × List KernelEvent
  | s, [] =>
    if s.cq.isEmpty then (s, [], [])
    else ((drainCq s).1, (drainCq s).2, [])
  | s, ev :: rest =>
    if s.cq.isEmpty then
      match ev with
      | KernelEvent.spurious => ((drainCq s).1, (drainCq s).2, rest)
      | KernelEvent.complete t r =>
        waitBounded (applyKernel s (KernelEvent.complete t r)) rest
      | KernelEvent.cancelHit t =>
        waitBounded (applyKernel s (KernelEvent.cancelHit t)) rest
    else ((drainCq s).1, (drainCq s).2, ev :: rest)

/-- Modelled from the spec: submit_and_wait_completed flushes the submission
queue to the kernel, then waits according to the timeout — not at all for a
zero timeout (harvesting only the already-ready completions and consuming no
kernel events), up to expiry for a positive one, indefinitely when no timeout
is given — and drains every currently available completion.  The timeout is
modelled in abstract ticks; none means block forever. -/
def submit_and_wait_completed (s : DriverState) (timeout : Option Nat)
    (evs : List KernelEvent) :
    Option (DriverState × List Entry × List KernelEvent) :=
  let s1 := flushSq s
  match timeout with
  | some 0 => some ((drainCq s1).1, (drainCq s1).2, evs)
  | some (_ + 1) => some (waitBounded s1 evs)
  | none => waitForever s1 evs

/-- Number of accepted-operation records carrying token t in a submission
queue. -/
def sqTokenCount (l : List SqRecord) (t : Nat) : Nat :=
  l.countP (fun r =>
    match r with
    | SqRecord.op u => u == t
    | SqRecord.cancel _ => false)

/-- Number of entries carrying token t in a list of completion entries. -/
def entryCount (l : List Entry) (t : Nat) : Nat :=
  l.countP (fun e => e.user_data == t)

/-- Total number of places token t occupies in a driver state: queued,
in-flight, completed-but-undrained, or reported. -/
def tokenTotal (s : DriverState) (t : Nat) : Nat :=
  sqTokenCount s.sq t + s.inflight.count t
    + entryCount s.cq t + entryCount s.reported t

/-- One driver-facing step of a run: a push attempt, a cancel attempt, or a
submit-and-wait call fed by a stream of kernel events. -/
inductive DriverAction where
  | push (o : Operation Nat)
  | cancel (t : Nat)
  | submitWait (timeout : Option Nat) (evs : List KernelEvent)

/-- Effect of one driver action on the state.  A blocked submit-and-wait (its
event stream exhausted with nothing to report) leaves the driver having
flushed and absorbed every kernel event without draining. -/
def applyAction (s : DriverState) (a : DriverAction) : DriverState :=
  match a with
  | DriverAction.push o => (try_push s o).2
  | DriverAction.cancel t => (try_cancel s t).2
  | DriverAction.submitWait timeout evs =>
    match submit_and_wait_completed s timeout evs with
    | some (s2, _, _) => s2
    | none => applyKernelAll (flushSq s) evs

/-- Indicator: the action is a push of token t that the driver accepts in
state s (the submission queue has room). -/
def pushAcceptedMark (s : DriverState) (a : DriverAction) (t : Nat) : Nat :=
  match a with
  | DriverAction.push o =>
    if s.sq.length < s.capacity ∧ o.user_data = t then 1 else 0
  | _ => 0

/-- Number of pushes of token t accepted along a run of actions. -/
def acceptedCount : DriverState → List DriverAction → Nat → Nat
  | _, [], _ => 0
  | s, a :: rest, t =>
    pushAcceptedMark s a t + acceptedCount (applyAction s a) rest t

/-- Runs a list of driver actions from a starting state. -/
def runActions (s : DriverState) (acts : List DriverAction) : DriverState :=
  acts.foldl applyAction s

theorem sqTokens_count (l : List SqRecord) (t : Nat) :
    (sqTokens l).count t = sqTokenCount l t := by
  induction l with
  | nil => rfl
  | cons r rest ih =>
    cases r with
    | op u =>
      simp only [sqTokens, List.filterMap_cons, sqTokenCount, List.countP_cons]
      simp only [sqTokens, sqTokenCount] at ih
      simp [List.count_cons, ih]
    | cancel u =>
      simp only [sqTokens, List.filterMap_cons, sqTokenCount, List.countP_cons]
      simp only [sqTokens, sqTokenCount] at ih
      simp [ih]

theorem tokenTotal_flushSq (s : DriverState) (t : Nat) :
    tokenTotal (flushSq s) t = tokenTotal s t := by
  simp only [flushSq, tokenTotal, sqTokenCount, List.countP_nil,
    List.count_append, sqTokens_count]
  omega

theorem tokenTotal_applyKernel (s : DriverState) (ev : KernelEvent) (t : Nat) :
    tokenTotal (applyKernel s ev) t = tokenTotal s t := by
  have key : ∀ (t' : Nat) (r : IoResult), t' ∈ s.inflight →
      sqTokenCount s.sq t + (s.inflight.erase t').count t
        + entryCount (s.cq ++ [Entry.new t' r]) t + entryCount s.reported t
      = tokenTotal s t := by
    intro t' r h
    have hcq : entryCount (s.cq ++ [Entry.new t' r]) t
        = entryCount s.cq t + if t' == t then 1 else 0 := by
      simp [entryCount, List.countP_append, List.countP_cons, Entry.new]
    by_cases ht : t = t'
    · subst ht
      have h1 : (s.inflight.erase t).count t = s.inflight.count t - 1 :=
        List.count_erase_self t s.inflight
      have h2 : 0 < s.inflight.count t := List.count_pos_iff.mpr h
      simp only [tokenTotal, hcq, h1, beq_self_eq_true, if_pos]
      omega
    · have h1 : (s.inflight.erase t').count t = s.inflight.count t :=
        List.count_erase_of_ne ht s.inflight
      have h3 : (t' == t) = false := by
        simp [beq_eq_false_iff_ne]
        exact fun hh => ht hh.symm
      simp only [tokenTotal, hcq, h1, h3]
      simp
  cases ev with
  | spurious => rfl
  | complete t' r =>
    simp only [applyKernel]
    by_cases h : t' ∈ s.inflight
    · rw [if_pos h]
      exact key t' r h
    · rw [if_neg h]
  | cancelHit t' =>
    simp only [applyKernel]
    by_cases h : t' ∈ s.inflight
    · rw [if_pos h]
      exact key t' (Except.error IoError.cancelled) h
    · rw [if_neg h]

theorem tokenTotal_applyKernelAll (evs : List KernelEvent) :
    ∀ (s : DriverState) (t : Nat),
      tokenTotal (applyKernelAll s evs) t = tokenTotal s t := by
  induction evs with
  | nil => intro s t; rfl
  | cons ev rest ih =>
    intro s t
    simp only [applyKernelAll, List.foldl_cons]
    rw [show List.foldl applyKernel (applyKernel s ev) rest
        = applyKernelAll (applyKernel s ev) rest from rfl]
    rw [ih, tokenTotal_applyKernel]

theorem tokenTotal_drainCq (s : DriverState) (t : Nat) :
    tokenTotal (drainCq s).1 t = tokenTotal s t := by
  simp only [drainCq, tokenTotal, entryCount, List.countP_append,
    List.countP_nil]
  omega

theorem tokenTotal_waitForever (evs : List KernelEvent) :
    ∀ (s s2 : DriverState) (es : List Entry) (rest : List KernelEvent)
      (t : Nat), waitForever s evs = some (s2, es, rest) →
      tokenTotal s2 t = tokenTotal s t := by
  induction evs with
  | nil =>
    intro s s2 es rest t h
    rw [waitForever] at h
    by_cases hc : s.cq.isEmpty
    · rw [if_pos hc] at h
      exact absurd h (by simp)
    · rw [if_neg hc] at h
      have h2 : (drainCq s).1 = s2 := congrArg Prod.fst (Option.some.inj h)
      rw [← h2, tokenTotal_drainCq]
  | cons ev rest0 ih =>
    intro s s2 es rest t h
    cases ev with
    | spurious =>
      rw [waitForever] at h
      by_cases hc : s.cq.isEmpty
      · rw [if_pos hc] at h
        try simp only at h
        have h2 : (drainCq s).1 = s2 := congrArg Prod.fst (Option.some.inj h)
        rw [← h2, tokenTotal_drainCq]
      · rw [if_neg hc] at h
        have h2 : (drainCq s).1 = s2 := congrArg Prod.fst (Option.some.inj h)
        rw [← h2, tokenTotal_drainCq]
    | complete t' r =>
      rw [waitForever] at h
      by_cases hc : s.cq.isEmpty
      · rw [if_pos hc] at h
        try simp only at h
        rw [ih _ _ _ _ t h, tokenTotal_applyKernel]
      · rw [if_neg hc] at h
        have h2 : (drainCq s).1 = s2 := congrArg Prod.fst (Option.some.inj h)
        rw [← h2, tokenTotal_drainCq]
    | cancelHit t' =>
      rw [waitForever] at h
      by_cases hc : s.cq.isEmpty
      · rw [if_pos hc] at h
        try simp only at h
        rw [ih _ _ _ _ t h, tokenTotal_applyKernel]
      · rw [if_neg hc] at h
        have h2 : (drainCq s).1 = s2 := congrArg Prod.fst (Option.some.inj h)
        rw [← h2, tokenTotal_drainCq]

theorem tokenTotal_waitBounded (evs : List KernelEvent) :
    ∀ (s : DriverState) (t : Nat),
      tokenTotal (waitBounded s evs).1 t = tokenTotal s t := by
  induction evs with
  | nil =>
    intro s t
    rw [waitBounded]
    by_cases hc : s.cq.isEmpty
    · rw [if_pos hc]
    · rw [if_neg hc]
      exact tokenTotal_drainCq s t
  | cons ev rest0 ih =>
    intro s t
    cases ev with
    | spurious =>
      rw [waitBounded]
      by_cases hc : s.cq.isEmpty
      · rw [if_pos hc]
        exact tokenTotal_drainCq s t
      · rw [if_neg hc]
        exact tokenTotal_drainCq s t
    | complete t' r =>
      rw [waitBounded]
      by_cases hc : s.cq.isEmpty
      · rw [if_pos hc]
        try simp only
        rw [ih _ t, tokenTotal_applyKernel]
      · rw [if_neg hc]
        exact tokenTotal_drainCq s t
    | cancelHit t' =>
      rw [waitBounded]
      by_cases hc : s.cq.isEmpty
      · rw [if_pos hc]
        try simp only
        rw [ih _ t, tokenTotal_applyKernel]
      · rw [if_neg hc]
        exact tokenTotal_drainCq s t

theorem tokenTotal_submit (s : DriverState) (timeout : Option Nat)
    (evs : List KernelEvent) (s2 : DriverState) (es : List Entry)
    (rest : List KernelEvent) (t : Nat)
    (h : submit_and_wait_completed s timeout evs = some (s2, es, rest)) :
    tokenTotal s2 t = tokenTotal s t := by
  match timeout with
  | some 0 =>
    simp only [submit_and_wait_completed] at h
    have h2 : (drainCq (flushSq s)).1 = s2 :=
      congrArg Prod.fst (Option.some.inj h)
    rw [← h2, tokenTotal_drainCq, tokenTotal_flushSq]
  | some (n + 1) =>
    simp only [submit_and_wait_completed] at h
    have h2 : (waitBounded (flushSq s) evs).1 = s2 :=
      congrArg Prod.fst (Option.some.inj h)
    rw [← h2, tokenTotal_waitBounded, tokenTotal_flushSq]
  | none =>
    simp only [submit_and_wait_completed] at h
    rw [tokenTotal_waitForever evs _ _ _ _ t h, tokenTotal_flushSq]

theorem tokenTotal_applyAction (s : DriverState) (a : DriverAction)
    (t : Nat) :
    tokenTotal (applyAction s a) t
      = tokenTotal s t + pushAcceptedMark s a t := by
  cases a with
  | push o =>
    simp only [applyAction, try_push, pushAcceptedMark]
    by_cases hg : s.sq.length < s.capacity
    · rw [if_pos hg]
      simp only [tokenTotal, sqTokenCount, List.countP_append,
        List.countP_cons, List.countP_nil]
      by_cases hu : o.user_data = t
      · simp [hg, hu]
        omega
      · have : (o.user_data == t) = false := by
          simp [beq_eq_false_iff_ne, hu]
        simp [hg, hu, this, tokenTotal, sqTokenCount]
    · rw [if_neg hg]
      simp [hg]
  | cancel t' =>
    simp only [applyAction, try_cancel, pushAcceptedMark]
    by_cases hg : s.sq.length < s.capacity
    · rw [if_pos hg]
      simp only [tokenTotal, sqTokenCount, List.countP_append,
        List.countP_cons, List.countP_nil]
      simp
    · rw [if_neg hg]
      simp
  | submitWait timeout evs =>
    simp only [applyAction, pushAcceptedMark]
    cases hsub : submit_and_wait_completed s timeout evs with
    | none =>
      simp only []
      rw [tokenTotal_applyKernelAll, tokenTotal_flushSq]
      omega
    | some out =>
      obtain ⟨s2, es, rest⟩ := out
      simp only []
      rw [tokenTotal_submit s timeout evs s2 es rest t hsub]
      omega

theorem tokenTotal_runActions (acts : List DriverAction) :
    ∀ (s : DriverState) (t : Nat),
      tokenTotal (runActions s acts) t
        = tokenTotal s t + acceptedCount s acts t := by
  induction acts with
  | nil => intro s t; simp [runActions, acceptedCount]
  | cons a rest ih =>
    intro s t
    simp only [runActions, List.foldl_cons, acceptedCount]
    rw [show List.foldl applyAction (applyAction s a) rest
        = runActions (applyAction s a) rest from rfl]
    rw [ih, tokenTotal_applyAction]
    omega

theorem tokenTotal_new (cap t : Nat) :
    tokenTotal (DriverState.new cap) t = 0 := rfl

theorem waitForever_returns_on_event (evs : List KernelEvent) :
    ∀ (s s2 : DriverState) (es : List Entry) (rest : List KernelEvent),
      waitForever s evs = some (s2, es, rest) →
      es ≠ [] ∨ KernelEvent.spurious ∈ evs := by
  induction evs with
  | nil =>
    intro s s2 es rest h
    rw [waitForever] at h
    by_cases hc : s.cq.isEmpty
    · rw [if_pos hc] at h
      exact absurd h (by simp)
    · rw [if_neg hc] at h
      left
      have h2 : s.cq = es := congrArg (fun p => p.2.1) (Option.some.inj h)
      intro hnil
      exact hc (by rw [h2, hnil]; rfl)
  | cons ev rest0 ih =>
    intro s s2 es rest h
    cases ev with
    | spurious =>
      right
      exact List.mem_cons_self _ _
    | complete t' r =>
      rw [waitForever] at h
      by_cases hc : s.cq.isEmpty
      · rw [if_pos hc] at h
        try simp only at h
        rcases ih _ _ _ _ h with hes | hsp
        · exact Or.inl hes
        · exact Or.inr (List.mem_cons_of_mem _ hsp)
      · rw [if_neg hc] at h
        left
        have h2 : s.cq = es := congrArg (fun p => p.2.1) (Option.some.inj h)
        intro hnil
        exact hc (by rw [h2, hnil]; rfl)
    | cancelHit t' =>
      rw [waitForever] at h
      by_cases hc : s.cq.isEmpty
      · rw [if_pos hc] at h
        try simp only at h
        rcases ih _ _ _ _ h with hes | hsp
        · exact Or.inl hes
        · exact Or.inr (List.mem_cons_of_mem _ hsp)
      · rw [if_neg hc] at h
        left
        have h2 : s.cq = es := congrArg (fun p => p.2.1) (Option.some.inj h)
        intro hnil
        exact hc (by rw [h2, hnil]; rfl)

/-- C3: for every operation, try_push (and try_push_dyn) either succeeds, or,
when the submission queue is full, returns the very same operation back
unchanged (same opcode and same user_data) in the error variant, performing no
kernel submission and leaving the whole driver state — the submission queue
included — unchanged. -/
theorem try_push_full_conservation :
    ∀ (O : Type) (s : DriverState) (op : Operation O) (dop : OpObject),
      (capacity_left s = 0 → try_push s op = (Except.error op, s)) ∧
      (0 < capacity_left s → (try_push s op).1 = Except.ok ()) ∧
      (capacity_left s = 0 → try_push_dyn s dop = (Except.error dop, s)) := by
  intro O s op dop
  have hiff : capacity_left s = 0 ↔ ¬s.sq.length < s.capacity := by
    constructor
    · intro h0 hlt
      have : s.capacity - s.sq.length = 0 := h0
      omega
    · intro hge
      have : s.capacity ≤ s.sq.length := Nat.le_of_not_lt hge
      exact Nat.sub_eq_zero_of_le this
  refine ⟨fun h => ?_, fun h => ?_, fun h => ?_⟩
  · rw [try_push, if_neg (hiff.mp h)]
  · have hlt : s.sq.length < s.capacity := by
      by_contra hc
      rw [hiff.mpr hc] at h
      omega
    rw [try_push, if_pos hlt]
  · rw [try_push_dyn, try_push, if_neg (hiff.mp h)]

theorem try_push_full_conservation_witness :
    capacity_left
        ({ capacity := 1, sq := [SqRecord.op 0], inflight := [], cq := [],
           reported := [] } : DriverState) = 0 ∧
    try_push
        ({ capacity := 1, sq := [SqRecord.op 0], inflight := [], cq := [],
           reported := [] } : DriverState) (Operation.new (5 : Nat) 9)
      = (Except.error (Operation.new (5 : Nat) 9),
        ({ capacity := 1, sq := [SqRecord.op 0], inflight := [], cq := [],
           reported := [] } : DriverState)) ∧
    (try_push (DriverState.new 4) (Operation.new (5 : Nat) 9)).1
      = Except.ok () :=
  ⟨rfl,
    (try_push_full_conservation Nat
      ({ capacity := 1, sq := [SqRecord.op 0], inflight := [], cq := [],
         reported := [] }) (Operation.new 5 9) (Operation.new 5 9)).1 rfl,
    (try_push_full_conservation Nat (DriverState.new 4) (Operation.new 5 9)
      (Operation.new 5 9)).2.1 (by decide)⟩

/-- C7: attach is idempotent per driver; on the io_uring platform it does
nothing and returns Ok(()) for every fd, so attaching the same fd twice has
exactly the same observable effect as attaching it once. -/
theorem attach_ok_idempotent :
    ∀ (s : DriverState) (fd : Int),
      attach s fd = (Except.ok (), s) ∧
      attach (attach s fd).2 fd = attach s fd :=
  fun _ _ => ⟨rfl, rfl⟩

/-- C2: with timeout Some(ZERO), submit_and_wait_completed performs no
waiting — it returns for every state of the kernel event source, consumes no
kernel event, and delivers exactly the already-ready completions (possibly
none); with timeout None it returns only after at least one completion or a
spurious wakeup, and blocks when neither ever arrives. -/
theorem submit_wait_timeout_semantics :
    ∀ (s : DriverState) (evs : List KernelEvent),
      (∃ s2, submit_and_wait_completed s (some 0) evs
        = some (s2, (flushSq s).cq, evs)) ∧
      (∀ s2 es rest,
        submit_and_wait_completed s none evs = some (s2, es, rest) →
          es ≠ [] ∨ KernelEvent.spurious ∈ evs) ∧
      ((flushSq s).cq = [] → submit_and_wait_completed s none [] = none) := by
  intro s evs
  refine ⟨⟨(drainCq (flushSq s)).1, rfl⟩, ?_, ?_⟩
  · intro s2 es rest h
    exact waitForever_returns_on_event evs (flushSq s) s2 es rest h
  · intro h
    simp only [submit_and_wait_completed]
    rw [waitForever, if_pos (by rw [h]; rfl)]

theorem submit_wait_timeout_semantics_witness :
    (∃ s2, submit_and_wait_completed
        ({ capacity := 1, sq := [], inflight := [],
           cq := [Entry.new 3 (Except.ok 0)], reported := [] } : DriverState)
        (some 0) []
      = some (s2,
          (flushSq ({ capacity := 1, sq := [], inflight := [],
                      cq := [Entry.new 3 (Except.ok 0)],
                      reported := [] } : DriverState)).cq, [])) ∧
    ([Entry.new 3 (Except.ok 0)] ≠ ([] : List Entry)
      ∨ KernelEvent.spurious ∈ ([] : List KernelEvent)) ∧
    submit_and_wait_completed (DriverState.new 1) none [] = none :=
  ⟨(submit_wait_timeout_semantics
      ({ capacity := 1, sq := [], inflight := [],
         cq := [Entry.new 3 (Except.ok 0)], reported := [] }) []).1,
    (submit_wait_timeout_semantics
      ({ capacity := 1, sq := [], inflight := [],
         cq := [Entry.new 3 (Except.ok 0)], reported := [] }) []).2.1
      _ [Entry.new 3 (Except.ok 0)] [] rfl,
    (submit_wait_timeout_semantics (DriverState.new 1) []).2.2 rfl⟩

/-- C1: the completion entry reported for an accepted operation carries
exactly the token supplied at submission.  Operation::new stores the token,
Entry::new carries it back unchanged and Entry::into_result returns the
stored result unchanged; in any run of the modelled driver a reported entry
for token t is only possible when a push of t was accepted, and an accepted
op completed by the kernel with result r is reported as exactly
Entry.new t r. -/
theorem entry_token_fidelity :
    (∀ (O : Type) (o : O) (t : Nat), (Operation.new o t).user_data = t) ∧
    (∀ (t : Nat) (r : IoResult),
      (Entry.new t r).user_data = t ∧ (Entry.new t r).into_result = r) ∧
    (∀ (cap : Nat) (acts : List DriverAction) (t : Nat),
      entryCount (runActions (DriverState.new cap) acts).reported t
        ≤ acceptedCount (DriverState.new cap) acts t) ∧
    (∀ (o t : Nat) (r : IoResult) (cap : Nat), 0 < cap →
      ∃ s1, try_push (DriverState.new cap) (Operation.new o t)
          = (Except.ok (), s1) ∧
        ∃ s2, submit_and_wait_completed s1 none [KernelEvent.complete t r]
          = some (s2, [Entry.new t r], [])) := by
  refine ⟨fun O o t => rfl, fun t r => ⟨rfl, rfl⟩, ?_, ?_⟩
  · intro cap acts t
    have h := tokenTotal_runActions acts (DriverState.new cap) t
    rw [tokenTotal_new] at h
    have hle : entryCount (runActions (DriverState.new cap) acts).reported t
        ≤ tokenTotal (runActions (DriverState.new cap) acts) t := by
      simp only [tokenTotal]
      omega
    omega
  · intro o t r cap hcap
    refine ⟨{ capacity := cap, sq := [SqRecord.op t], inflight := [],
              cq := [], reported := [] }, ?_, ?_⟩
    · rw [try_push, if_pos ?_]
      · rfl
      · exact hcap
    · refine ⟨{ capacity := cap, sq := [], inflight := [], cq := [],
                reported := [Entry.new t r] }, ?_⟩
      simp [submit_and_wait_completed, flushSq, sqTokens, waitForever,
        applyKernel, drainCq]

theorem entry_token_fidelity_witness :
    0 < 1 ∧
    (∃ s1, try_push (DriverState.new 1) (Operation.new 0 7)
        = (Except.ok (), s1) ∧
      ∃ s2, submit_and_wait_completed s1 none
          [KernelEvent.complete 7 (Except.ok 5)]
        = some (s2, [Entry.new 7 (Except.ok 5)], [])) :=
  ⟨by decide, entry_token_fidelity.2.2.2 0 7 (Except.ok 5) 1 (by decide)⟩

/-- C4: try_cancel fails exactly when the submission queue is full (on
io_uring a cancellation request needs a submission-queue slot); and whether or
not any cancellation request was honored, every accepted operation still
produces exactly one completion entry: in any run of the modelled driver that
ends fully drained, the number of reported entries carrying token t equals
the number of accepted pushes of t. -/
theorem try_cancel_full_iff_and_exactly_once :
    (∀ (s : DriverState) (t : Nat),
      ((try_cancel s t).1 = Except.error () ↔ capacity_left s = 0)) ∧
    (∀ (cap : Nat) (acts : List DriverAction) (t : Nat),
      (runActions (DriverState.new cap) acts).sq = [] →
      (runActions (DriverState.new cap) acts).inflight = [] →
      (runActions (DriverState.new cap) acts).cq = [] →
      entryCount (runActions (DriverState.new cap) acts).reported t
        = acceptedCount (DriverState.new cap) acts t) := by
  constructor
  · intro s t
    rw [try_cancel]
    by_cases hg : s.sq.length < s.capacity
    · rw [if_pos hg]
      constructor
      · intro hc
        exact absurd hc (by simp)
      · intro h0
        exfalso
        have : s.capacity - s.sq.length = 0 := h0
        omega
    · rw [if_neg hg]
      constructor
      · intro _
        exact Nat.sub_eq_zero_of_le (Nat.le_of_not_lt hg)
      · intro _
        rfl
  · intro cap acts t hsq hin hcq
    have h := tokenTotal_runActions acts (DriverState.new cap) t
    rw [tokenTotal_new] at h
    simp only [tokenTotal, hsq, hin, hcq, sqTokenCount, entryCount,
      List.countP_nil, List.count_nil] at h
    simpa using h

theorem try_cancel_full_iff_and_exactly_once_witness :
    ((try_cancel
        ({ capacity := 1, sq := [SqRecord.op 0], inflight := [], cq := [],
           reported := [] } : DriverState) 3).1 = Except.error ()) ∧
    ((runActions (DriverState.new 4)
        [DriverAction.push (Operation.new 0 7), DriverAction.cancel 7,
         DriverAction.submitWait none [KernelEvent.cancelHit 7]]).sq = [] ∧
      (runActions (DriverState.new 4)
        [DriverAction.push (Operation.new 0 7), DriverAction.cancel 7,
         DriverAction.submitWait none [KernelEvent.cancelHit 7]]).inflight
        = [] ∧
      (runActions (DriverState.new 4)
        [DriverAction.push (Operation.new 0 7), DriverAction.cancel 7,
         DriverAction.submitWait none [KernelEvent.cancelHit 7]]).cq = []) ∧
    entryCount (runActions (DriverState.new 4)
        [DriverAction.push (Operation.new 0 7), DriverAction.cancel 7,
         DriverAction.submitWait none [KernelEvent.cancelHit 7]]).reported 7
      = acceptedCount (DriverState.new 4)
        [DriverAction.push (Operation.new 0 7), DriverAction.cancel 7,
         DriverAction.submitWait none [KernelEvent.cancelHit 7]] 7 :=
  ⟨(try_cancel_full_iff_and_exactly_once.1
      ({ capacity := 1, sq := [SqRecord.op 0], inflight := [], cq := [],
         reported := [] }) 3).mpr rfl,
    ⟨rfl, rfl, rfl⟩,
    try_cancel_full_iff_and_exactly_once.2 4
      [DriverAction.push (Operation.new 0 7), DriverAction.cancel 7,
       DriverAction.submitWait none [KernelEvent.cancelHit 7]] 7 rfl rfl rfl⟩

/-- Native io_uring opcodes used by this backend, per the external-interface
section of the specification. -/
inductive UringOpcode where
  | read
  | write
  | fsync
  | accept
  | connect
  | readv
  | writev
  | recvmsg
  | sendmsg
  | timeout
  | asyncCancel
deriving DecidableEq, Repr

/-- Kernel-format submission record (io_uring SQE) as filled in by the
builders of the io_uring crate: the opcode tag, the fd field, the addr
pointer field, the len field, the off field and the fsync flags field.
Pointers are modelled as addresses. -/
structure Sqe where
  opcode : UringOpcode
  fd : Int
  addr : Nat
  len : Nat
  off : Nat
  fsync_flags : Nat
deriving DecidableEq, Repr

/-- Bit value of the io_uring DATASYNC fsync flag. -/
def fsyncDatasync : Nat := 1

/-- Empty fsync flag set. -/
def fsyncEmpty : Nat := 0

/-- The io_uring crate's Fsync builder: opcode::Fsync::new(fd) targets the
fd with no other arguments. -/
def fsyncNew (fd : Int) : Sqe :=
  { opcode := UringOpcode.fsync, fd := fd, addr := 0, len := 0, off := 0,
    fsync_flags := fsyncEmpty }

/-- The io_uring crate's flags setter on the Fsync builder. -/
def fsyncWithFlags (e : Sqe) (flags : Nat) : Sqe :=
  { e with fsync_flags := flags }

/-- Fsync operation of the opcode catalog (struct Sync; its fields fd and
datasync are the ones read by create_entry in src/driver/iour/op.rs). -/
structure Sync where
  fd : Int
  datasync : Bool
deriving DecidableEq, Repr

/-- Embeds Sync::create_entry from src/driver/iour/op.rs: builds an Fsync
submission record whose flags are DATASYNC when self.datasync is set and
empty otherwise. -/
def Sync.create_entry (self : Sync) : Sqe :=
  fsyncWithFlags (fsyncNew self.fd)
    (if self.datasync then fsyncDatasync else fsyncEmpty)

/-- C8: the fsync submission record carries the data-only DATASYNC flag if
and only if the op's datasync field is true, and requests a full flush (empty
flags) otherwise; the record targets the op's fd with the fsync opcode. -/
theorem sync_entry_datasync_flag :
    ∀ (self : Sync),
      ((Sync.create_entry self).fsync_flags = fsyncDatasync
          ↔ self.datasync = true) ∧
      (self.datasync = false →
        (Sync.create_entry self).fsync_flags = fsyncEmpty) ∧
      (Sync.create_entry self).opcode = UringOpcode.fsync ∧
      (Sync.create_entry self).fd = self.fd := by
  intro self
  refine ⟨?_, ?_, rfl, rfl⟩
  · cases hd : self.datasync with
    | false =>
      simp [Sync.create_entry, hd, fsyncDatasync, fsyncEmpty, fsyncWithFlags,
        fsyncNew]
    | true =>
      simp [Sync.create_entry, hd, fsyncWithFlags, fsyncNew]
  · intro hd
    simp [Sync.create_entry, hd, fsyncWithFlags, fsyncNew]

theorem sync_entry_datasync_flag_witness :
    (Sync.create_entry { fd := 3, datasync := true }).fsync_flags
        = fsyncDatasync ∧
    (Sync.create_entry { fd := 3, datasync := false }).fsync_flags
        = fsyncEmpty :=
  ⟨(sync_entry_datasync_flag { fd := 3, datasync := true }).1.mpr rfl,
    (sync_entry_datasync_flag { fd := 3, datasync := false }).2.1 rfl⟩

/-- Timeout operation as used by create_entry in src/driver/iour/op.rs.  The
struct itself lives in driver/unix/op.rs, which is absent from the sources;
per the specification a timeout op carries the requested duration as a
kernel timespec (modelled by the seconds and nanoseconds values together
with the address of that timespec).  The fields fd and addr (socket-address
storage, with its pointer and length) are the ones the iour create_entry
body references. -/
structure Timeout where
  fd : Int
  addr_ptr : Nat
  addr_len : Nat
  timespec_ptr : Nat
  dur_sec : Nat
  dur_nsec : Nat
deriving DecidableEq, Repr

/-- Embeds Timeout::create_entry as written in src/driver/iour/op.rs: it
passes Fd(self.fd), self.addr.as_ptr() and self.addr.len() — the argument
list of the Connect builder — so the record it describes carries the fd and
the socket-address pointer and length, not the timespec. -/
def Timeout.create_entry (self : Timeout) : Sqe :=
  { opcode := UringOpcode.timeout, fd := self.fd, addr := self.addr_ptr,
    len := self.addr_len, off := 0, fsync_flags := fsyncEmpty }

/-- Modelled from the spec: the io_uring crate's Timeout builder,
opcode::Timeout::new(timespec), takes a single timespec pointer; the
resulting record has fd -1, addr pointing at the timespec and len 1. -/
def timeoutNew (timespec_ptr : Nat) : Sqe :=
  { opcode := UringOpcode.timeout, fd := -1, addr := timespec_ptr, len := 1,
    off := 0, fsync_flags := fsyncEmpty }

/-- Modelled from the spec: the timeout submission record the specification
requires — built from the operation's duration timespec. -/
def timeout_entry_spec (self : Timeout) : Sqe :=
  timeoutNew self.timespec_ptr

/-- C5: refuted at a concrete timeout op (duration 10 s, timespec stored at
address 2000, socket-address storage at address 1000 with length 16, fd 5).
The record built by the source's create_entry references the socket-address
storage and the fd, not the duration's timespec, so it differs from the
record the specification requires. -/
theorem timeout_entry_ignores_timespec :
    Timeout.create_entry
        { fd := 5, addr_ptr := 1000, addr_len := 16, timespec_ptr := 2000,
          dur_sec := 10, dur_nsec := 0 }
      ≠ timeout_entry_spec
        { fd := 5, addr_ptr := 1000, addr_len := 16, timespec_ptr := 2000,
          dur_sec := 10, dur_nsec := 0 } ∧
    (Timeout.create_entry
        { fd := 5, addr_ptr := 1000, addr_len := 16, timespec_ptr := 2000,
          dur_sec := 10, dur_nsec := 0 }).addr = 1000 ∧
    (timeout_entry_spec
        { fd := 5, addr_ptr := 1000, addr_len := 16, timespec_ptr := 2000,
          dur_sec := 10, dur_nsec := 0 }).addr = 2000 := by
  decide

/-- Owned buffer view as the driver sees it: a capacity and an initialized
length.  WrapBufMut::set_init (the buf module is outside the provided
sources; per the specification it sets the initialized length of the
buffer) is modelled as updating the initialized length. -/
structure MockBuf where
  cap : Nat
  init : Nat
deriving DecidableEq, Repr

/-- Modelled from the spec: WrapBufMut::set_init sets the buffer's
initialized length. -/
def MockBuf.set_init (b : MockBuf) (n : Nat) : MockBuf :=
  { b with init := n }

/-- Embeds the BufResultExt impl for BufResult of (usize, O) in src/op.rs:
when the result is Ok((init, _)) the buffer's initialized length is set to
init; on error the buffer is left unchanged. -/
def map_advanced_with {O : Type} (p : Except IoError (Nat × O) × MockBuf) :
    Except IoError (Nat × O) × MockBuf :=
  let (res, buffer) := p
  match res with
  | Except.ok (init, _) => (res, buffer.set_init init)
  | Except.error _ => (res, buffer)

/-- Embeds the BufResultExt impl for BufResult of usize in src/op.rs: the
result is wrapped as (res, ()), handed to the pair instance, and unwrapped
again. -/
def map_advanced (p : Except IoError Nat × MockBuf) :
    Except IoError Nat × MockBuf :=
  let (res, buffer) := p
  let (res2, buffer2) := map_advanced_with (Except.map (fun r => (r, ())) res,
    buffer)
  (Except.map (fun q => q.1) res2, buffer2)

/-- C6: for a receive-path completion with result Ok(n), map_advanced sets
the buffer's initialized length to exactly n while preserving the result and
the buffer's capacity; when the result is an error, map_advanced leaves
result and buffer entirely unchanged.  Likewise for the (count, flags)
variant used by message-based receives. -/
theorem map_advanced_sets_init :
    ∀ (b : MockBuf) (n : Nat) (e : IoError) (O : Type) (o : O),
      map_advanced (Except.ok n, b) = (Except.ok n, { b with init := n }) ∧
      map_advanced (Except.error e, b) = (Except.error e, b) ∧
      map_advanced_with (Except.ok (n, o), b)
        = (Except.ok (n, o), { b with init := n }) ∧
      @map_advanced_with O (Except.error e, b)
        = (Except.error e, b) ∧
      (map_advanced (Except.ok n, b)).2.cap = b.cap :=
  fun _ _ _ _ _ =>
    ⟨rfl, rfl, rfl, rfl, rfl⟩

/-- Results a sequence of recv calls hands back, as observed by the retry
loop: each element is one recv completion, a byte count or an error. -/
abbrev RecvOracle := List (Except IoError Nat)

/-- Embeds Socket::recv_exact from src/net/socket.rs.  need is the length of
the buffer's uninitialized slice computed on entry; total_read accumulates
the counts.  The loop body recv result is taken from the oracle list; an
error is returned at once through buf_try.  After the loop the source
returns UnexpectedEof when total_read is still short and Ok(total_read)
otherwise (the dead branch is kept verbatim).  none models a loop still
waiting on a recv that has not completed. -/
def recv_exact (need : Nat) :
    Nat → RecvOracle → Option (Except IoError Nat)
  | total_read, [] =>
    if total_read < need then none
    else
      some (if total_read < need then Except.error IoError.unexpectedEof
            else Except.ok total_read)
  | total_read, r :: rest =>
    if total_read < need then
      match r with
      | Except.error e => some (Except.error e)
      | Except.ok read => recv_exact need (total_read + read) rest
    else
      some (if total_read < need then Except.error IoError.unexpectedEof
            else Except.ok total_read)

/-- C9: recv_exact never produces the post-loop UnexpectedEof error: every
error it returns was returned by an underlying recv (so, when no recv
reports UnexpectedEof, neither does recv_exact), and every non-error return
is Ok(total_read) with total_read at least the requested length. -/
theorem recv_exact_no_unexpected_eof :
    ∀ (need : Nat) (oracle : RecvOracle) (total : Nat),
      (∀ e, recv_exact need total oracle = some (Except.error e) →
        Except.error e ∈ oracle) ∧
      (∀ n, recv_exact need total oracle = some (Except.ok n) →
        need ≤ n) ∧
      ((∀ e, Except.error e ∈ oracle → e ≠ IoError.unexpectedEof) →
        recv_exact need total oracle
          ≠ some (Except.error IoError.unexpectedEof)) := by
  intro need oracle
  induction oracle with
  | nil =>
    intro total
    refine ⟨?_, ?_, ?_⟩
    · intro e h
      rw [recv_exact] at h
      by_cases hlt : total < need
      · rw [if_pos hlt] at h
        exact absurd h (by simp)
      · rw [if_neg hlt, if_neg hlt] at h
        exact absurd (Option.some.inj h) (by simp)
    · intro n h
      rw [recv_exact] at h
      by_cases hlt : total < need
      · rw [if_pos hlt] at h
        exact absurd h (by simp)
      · rw [if_neg hlt, if_neg hlt] at h
        have := Option.some.inj h
        have hn : total = n := by
          cases this
          rfl
        omega
    · intro hcl h
      rw [recv_exact] at h
      by_cases hlt : total < need
      · rw [if_pos hlt] at h
        exact absurd h (by simp)
      · rw [if_neg hlt, if_neg hlt] at h
        exact absurd (Option.some.inj h) (by simp)
  | cons r rest ih =>
    intro total
    refine ⟨?_, ?_, ?_⟩
    · intro e h
      cases r with
      | error e0 =>
        rw [recv_exact] at h
        by_cases hlt : total < need
        · rw [if_pos hlt] at h
          try simp only at h
          have := Option.some.inj h
          have he : e0 = e := by
            cases this
            rfl
          rw [he]
          exact List.mem_cons_self _ _
        · rw [if_neg hlt, if_neg hlt] at h
          exact absurd (Option.some.inj h) (by simp)
      | ok read =>
        rw [recv_exact] at h
        by_cases hlt : total < need
        · rw [if_pos hlt] at h
          try simp only at h
          exact List.mem_cons_of_mem _ ((ih (total + read)).1 e h)
        · rw [if_neg hlt, if_neg hlt] at h
          exact absurd (Option.some.inj h) (by simp)
    · intro n h
      cases r with
      | error e0 =>
        rw [recv_exact] at h
        by_cases hlt : total < need
        · rw [if_pos hlt] at h
          try simp only at h
          exact absurd (Option.some.inj h) (by simp)
        · rw [if_neg hlt, if_neg hlt] at h
          have := Option.some.inj h
          have hn : total = n := by
            cases this
            rfl
          omega
      | ok read =>
        rw [recv_exact] at h
        by_cases hlt : total < need
        · rw [if_pos hlt] at h
          try simp only at h
          exact (ih (total + read)).2.1 n h
        · rw [if_neg hlt, if_neg hlt] at h
          have := Option.some.inj h
          have hn : total = n := by
            cases this
            rfl
          omega
    · intro hcl h
      cases r with
      | error e0 =>
        rw [recv_exact] at h
        by_cases hlt : total < need
        · rw [if_pos hlt] at h
          try simp only at h
          have := Option.some.inj h
          have he : e0 = IoError.unexpectedEof := by
            cases this
            rfl
          exact hcl e0 (List.mem_cons_self _ _) he
        · rw [if_neg hlt, if_neg hlt] at h
          exact absurd (Option.some.inj h) (by simp)
      | ok read =>
        rw [recv_exact] at h
        by_cases hlt : total < need
        · rw [if_pos hlt] at h
          try simp only at h
          have hcl2 : ∀ e, Except.error e ∈ rest →
              e ≠ IoError.unexpectedEof :=
            fun e he => hcl e (List.mem_cons_of_mem _ he)
          exact (ih (total + read)).2.2 hcl2 h
        · rw [if_neg hlt, if_neg hlt] at h
          exact absurd (Option.some.inj h) (by simp)

theorem recv_exact_no_unexpected_eof_witness :
    recv_exact 4 0 [Except.ok 2, Except.ok 3] = some (Except.ok 5) ∧
    4 ≤ 5 :=
  ⟨rfl, (recv_exact_no_unexpected_eof 4 [Except.ok 2, Except.ok 3] 0).2.1
    5 rfl⟩

/-- Results a sequence of send calls hands back: each element, given the
length of the slice it was asked to send, reports the written byte count or
an error. -/
abbrev SendOracle := List (Nat → Except IoError Nat)

/-- Embeds Socket::send_all from src/net/socket.rs.  buf_len is the buffer
length computed on entry; each loop iteration sends the remaining slice
(whose length is buf_len - total_written), returns an error at once through
buf_try, and otherwise accumulates the written count; after the loop the
source returns Ok(total_written).  none models a loop still waiting on a
send that has not completed. -/
def send_all (buf_len : Nat) :
    Nat → SendOracle → Option (Except IoError Nat)
  | total_written, [] =>
    if total_written < buf_len then none
    else some (Except.ok total_written)
  | total_written, f :: rest =>
    if total_written < buf_len then
      match f (buf_len - total_written) with
      | Except.error e => some (Except.error e)
      | Except.ok written => send_all buf_len (total_written + written) rest
    else some (Except.ok total_written)

/-- C10: whenever send_all returns without an underlying send error, the
returned count equals the initial buffer length, provided each send reports
at most as many bytes written as the length of the slice it was given (the
kernel contract for send). -/
theorem send_all_returns_buf_len :
    ∀ (oracle : SendOracle) (buf_len total n : Nat),
      (∀ f, f ∈ oracle → ∀ k m, f k = Except.ok m → m ≤ k) →
      total ≤ buf_len →
      send_all buf_len total oracle = some (Except.ok n) →
      n = buf_len := by
  intro oracle
  induction oracle with
  | nil =>
    intro buf_len total n hor htot h
    rw [send_all] at h
    by_cases hlt : total < buf_len
    · rw [if_pos hlt] at h
      exact absurd h (by simp)
    · rw [if_neg hlt] at h
      have := Option.some.inj h
      have hn : total = n := by
        cases this
        rfl
      omega
  | cons f rest ih =>
    intro buf_len total n hor htot h
    rw [send_all] at h
    by_cases hlt : total < buf_len
    · rw [if_pos hlt] at h
      cases hf : f (buf_len - total) with
      | error e =>
        rw [hf] at h
        try simp only at h
        exact absurd (Option.some.inj h) (by simp)
      | ok written =>
        rw [hf] at h
        try simp only at h
        have hw : written ≤ buf_len - total :=
          hor f (List.mem_cons_self _ _) (buf_len - total) written hf
        have hor2 : ∀ g, g ∈ rest → ∀ k m, g k = Except.ok m → m ≤ k :=
          fun g hg => hor g (List.mem_cons_of_mem _ hg)
        exact ih buf_len (total + written) n hor2 (by omega) h
    · rw [if_neg hlt] at h
      have := Option.some.inj h
      have hn : total = n := by
        cases this
        rfl
      omega

theorem send_all_returns_buf_len_witness :
    (∀ f, f ∈ ([fun k => Except.ok k] : SendOracle) →
      ∀ k m, f k = Except.ok m → m ≤ k) ∧
    send_all 5 0 ([fun k => Except.ok k] : SendOracle)
      = some (Except.ok 5) ∧
    (5 : Nat) = 5 := by
  have hor : ∀ f, f ∈ ([fun k => Except.ok k] : SendOracle) →
      ∀ k m, f k = Except.ok m → m ≤ k := by
    intro f hf k m hm
    have hfe : f = fun k => Except.ok k := List.mem_singleton.mp hf
    rw [hfe] at hm
    have : k = m := by
      cases Except.ok.inj hm
      rfl
    omega
  refine ⟨hor, rfl, ?_⟩
  exact send_all_returns_buf_len [fun k => Except.ok k] 5 0 5 hor
    (Nat.zero_le 5) rfl

end CompleteIo
